import Mathlib

/-!
Verification of the classification-and-extraction subsystem of the R2R
repository parsers, together with the vector-storage pipe contract.

The Python sources are shallowly embedded:
* `core/parsers/repositories/ha_parser.py` (HomeAssistantParser and its six
  per-format extractors, the aggregator `_format_content`, and `ingest`);
* `core/parsers/repositories/generic_parser.py` (repository classification,
  the parser registry/dispatcher, and the generic `ingest`);
* `core/pipes/ingestion/vector_storage_pipe.py` (`_run_logic`).

Regular-expression patterns from the source are embedded as hand-rolled
recognizers over `List Char`.  Each recognizer follows the backtracking
semantics of the concrete pattern it embeds (the patterns are simple enough
that greedy/lazy matching has a closed form, noted at each definition).
Character classes model the ASCII behaviour of Python's `re` module, which
covers every input considered here.
-/

namespace R2R

/-! ## Character classes (Python `re` / `str` semantics, ASCII fragment) -/

/-- Python whitespace (`\s`, `str.isspace`), by code point: space, tab,
newline, carriage return, vertical tab, form feed, the
file/group/record/unit separators and NEL. -/
def isSpaceChar (c : Char) : Bool :=
  c.toNat = 32 || c.toNat = 9 || c.toNat = 10 || c.toNat = 13 ||
  c.toNat = 11 || c.toNat = 12 || c.toNat = 28 || c.toNat = 29 ||
  c.toNat = 30 || c.toNat = 31 || c.toNat = 133

/-- Line boundaries recognised by Python `str.splitlines`, by code point
(LF, CR, VT, FF, FS, GS, RS, NEL, LS, PS). -/
def isLineBreak (c : Char) : Bool :=
  c.toNat = 10 || c.toNat = 13 || c.toNat = 11 || c.toNat = 12 ||
  c.toNat = 28 || c.toNat = 29 || c.toNat = 30 || c.toNat = 133 ||
  c.toNat = 8232 || c.toNat = 8233

/-- `A`–`Z`. -/
def isUpperAZ (c : Char) : Bool := 65 ≤ c.toNat && c.toNat ≤ 90

/-- `a`–`z`. -/
def isLowerAZ (c : Char) : Bool := 97 ≤ c.toNat && c.toNat ≤ 122

/-- `0`–`9`. -/
def isDigit09 (c : Char) : Bool := 48 ≤ c.toNat && c.toNat ≤ 57

/-- `\w` (ASCII fragment): letters, digits, underscore. -/
def isWordChar (c : Char) : Bool :=
  isUpperAZ c || isLowerAZ c || isDigit09 c || c.toNat = 95

/-- First character of the `[A-Z_][A-Z0-9_]*` shell-name class. -/
def isNameStart (c : Char) : Bool := isUpperAZ c || c.toNat = 95

/-- Continuation character of the `[A-Z_][A-Z0-9_]*` shell-name class. -/
def isNameChar (c : Char) : Bool := isUpperAZ c || isDigit09 c || c.toNat = 95

/-! ## String utilities mirroring the Python built-ins used by the source -/

/-- `str.strip()` on a character list. -/
def stripChars (cs : List Char) : List Char :=
  ((cs.dropWhile isSpaceChar).reverse.dropWhile isSpaceChar).reverse

def stripStr (s : String) : String := String.mk (stripChars s.toList)

/-- Worker for `splitlines`: `acc` holds the current line reversed. -/
def splitlinesAux : List Char → List Char → List String
  | [], acc => if acc.isEmpty then [] else [String.mk acc.reverse]
  | '\r' :: '\n' :: rest, acc => String.mk acc.reverse :: splitlinesAux rest []
  | c :: rest, acc =>
    if isLineBreak c then String.mk acc.reverse :: splitlinesAux rest []
    else splitlinesAux rest (c :: acc)

/-- Python `str.splitlines()`. -/
def splitlines (s : String) : List String := splitlinesAux s.toList []

def lowerChar (c : Char) : Char :=
  if 'A' ≤ c && c ≤ 'Z' then Char.ofNat (c.toNat + 32) else c

/-- `str.lower()` (ASCII fragment). -/
def lowerStr (s : String) : String := String.mk (s.toList.map lowerChar)

/-- Python `str.split()` with no argument: split on whitespace runs,
dropping empty pieces. -/
def splitWsAux : List Char → List Char → List String
  | [], acc => if acc.isEmpty then [] else [String.mk acc.reverse]
  | c :: r, acc =>
    if isSpaceChar c then
      if acc.isEmpty then splitWsAux r []
      else String.mk acc.reverse :: splitWsAux r []
    else splitWsAux r (c :: acc)

def splitWs (s : String) : List String := splitWsAux s.toList []

/-- Substring test (`needle in haystack` for Python strings). -/
def containsSub : List Char → List Char → Bool
  | [], needle => needle.isEmpty
  | hay@(_ :: t), needle => needle.isPrefixOf hay || containsSub t needle

/-- Final path component (text after the last slash). -/
def lastComponent (cs : List Char) : List Char :=
  (cs.reverse.takeWhile (fun c => !(c = '/'))).reverse

/-- `pathlib.Path(filename).suffix`: the extension of the final component,
i.e. `name[i:]` for `i` the index of the last dot when `0 < i < len - 1`,
otherwise the empty string. -/
def pathSuffix (filename : String) : String :=
  let nm := lastComponent filename.toList
  let afterDotRev := nm.reverse.takeWhile (fun c => !(c = '.'))
  if afterDotRev.length = nm.length then ""
  else
    let i := nm.length - 1 - afterDotRev.length
    if 0 < i && i < nm.length - 1 then String.mk (nm.drop i) else ""

/-- `Path(document.filename).suffix.lower()` as computed by `ingest`. -/
def suffixLower (filename : String) : String := lowerStr (pathSuffix filename)

/-- First success of `f` over a list of candidates, in order; used to model
regex backtracking over an explicit candidate sequence. -/
def firstSome {α β : Type} : List α → (α → Option β) → Option β
  | [], _ => none
  | a :: r, f =>
    match f a with
    | some b => some b
    | none => firstSome r f

/-! ## Data model (`HAStructure`, `HAParseResult`, emissions) -/

/-- Values stored in a structure's `details` map or a dependency map.  The
source stores strings, ints (line numbers), lists of strings, one
string-to-string dict (genimage `properties`) and `None` (absent module of a
relative import). -/
inductive AttrVal where
  | str (s : String)
  | num (n : Nat)
  | strList (xs : List String)
  | attrMap (kvs : List (String × String))
  | noneV
deriving DecidableEq

/-- A Python dict with string keys, as an insertion-ordered assoc list. -/
abbrev Attrs := List (String × AttrVal)

/-- `HAStructure` dataclass. -/
structure HAStructure where
  type : String
  name : String
  details : Attrs
deriving DecidableEq

/-- `HAParseResult` dataclass. -/
structure HAParseResult where
  file_type : String
  structures : List HAStructure
  dependencies : List Attrs
  relationships : List Attrs
deriving DecidableEq

/-- The `{"type": ..., "name": ..., "details": ...}` dict built per
structure by `ingest` for the metadata record. -/
structure SMap where
  type : String
  name : String
  details : Attrs
deriving DecidableEq

/-- The metadata dict of a `DocumentExtraction`: either the success shape
built by `ingest` or the `{"error": msg}` shape. -/
inductive Metadata where
  | success (file_type : String) (structures : List SMap)
      (dependencies : List Attrs) (relationships : List Attrs)
  | error (msg : String)
deriving DecidableEq

/-- `DocumentExtraction`. -/
structure DocumentExtraction where
  content : String
  metadata : Metadata
deriving DecidableEq

/-- `Document`: filename plus raw content (content modelled as text). -/
structure Document where
  filename : String
  content : String
deriving DecidableEq

/-! ## Shell extractor (`_parse_shell`)

Pattern table `patterns["shell"]` (only the four patterns dispatched by the
loop are embedded; the `if_statement`, `for_loop` and `command` patterns are
declared in the source but never consulted by `_parse_shell`). -/

/-- `(\w+)\s*\(\)\s*{` after the optional keyword: greedy `\w+` needs no
backtracking because neither `\s` nor `(` is a word character. -/
def matchFunDefCore (cs : List Char) : Option String :=
  let w := cs.takeWhile isWordChar
  if w.isEmpty then none
  else
    match (cs.dropWhile isWordChar).dropWhile isSpaceChar with
    | '(' :: ')' :: rest =>
      match rest.dropWhile isSpaceChar with
      | b :: _ => if b = '{' then some (String.mk w) else none
      | [] => none
    | _ => none

/-- The optional-keyword attempt `function\s+` followed by the core. -/
def matchFunDefKw : List Char → Option String
  | 'f' :: 'u' :: 'n' :: 'c' :: 't' :: 'i' :: 'o' :: 'n' :: c :: r =>
    if isSpaceChar c then matchFunDefCore (r.dropWhile isSpaceChar) else none
  | _ => none

/-- `^(?:function\s+)?(\w+)\s*\(\)\s*{`: the greedy optional group is tried
first; on failure the match is retried without it. -/
def matchFunctionDef (cs : List Char) : Option String :=
  match matchFunDefKw cs with
  | some f => some f
  | none => matchFunDefCore cs

/-- `^([A-Z_][A-Z0-9_]*)\s*=\s*(.*?)$`: greedy name run, optional spaces,
`=`, then the lazy group runs to the end of the line ($ anchors it).  No
backtracking of the name run can succeed because `=` and whitespace are not
name characters. -/
def matchVarAssign (cs : List Char) : Option (String × String) :=
  match cs with
  | [] => none
  | c :: rest =>
    if isNameStart c then
      match (rest.dropWhile isNameChar).dropWhile isSpaceChar with
      | d :: v =>
        if d = '=' then
          some (String.mk (c :: rest.takeWhile isNameChar),
                String.mk (v.dropWhile isSpaceChar))
        else none
      | [] => none
    else none

/-- `^export\s+([A-Z_][A-Z0-9_]*)`: nothing anchors the end of the group, so
the captured name is the longest name-class prefix of the exported token. -/
def matchExport : List Char → Option String
  | 'e' :: 'x' :: 'p' :: 'o' :: 'r' :: 't' :: c :: rest =>
    if isSpaceChar c then
      match rest.dropWhile isSpaceChar with
      | d :: r2 =>
        if isNameStart d then some (String.mk (d :: r2.takeWhile isNameChar))
        else none
      | [] => none
    else none
  | _ => none

/-- `^\.\s+(.*?)$`. -/
def matchSource : List Char → Option String
  | '.' :: c :: r =>
    if isSpaceChar c then some (String.mk (r.dropWhile isSpaceChar)) else none
  | _ => none

/-- `current_function or "global"`: the name of a matched function header is
never empty, but the falsiness test on the empty string is kept faithful. -/
def scopeOf : Option String → String
  | some f => if f = "" then "global" else f
  | none => "global"

/-- One iteration of the `_parse_shell` loop: strip the line, then the
`if`/`elif` chain over the four dispatched patterns.  Returns the new
`current_function`, the structures appended and the dependencies appended. -/
def shellStep (cur : Option String) (n : Nat) (rawLine : String) :
    Option String × List HAStructure × List Attrs :=
  match matchFunctionDef (stripChars rawLine.toList) with
  | some f =>
    (some f,
     [⟨"function", f, [("line", .num n), ("commands", .strList [])]⟩], [])
  | none =>
    match matchVarAssign (stripChars rawLine.toList) with
    | some (nm, v) =>
      (cur,
       [⟨"variable", nm,
         [("value", .str v), ("line", .num n), ("scope", .str (scopeOf cur))]⟩],
       [])
    | none =>
      match matchExport (stripChars rawLine.toList) with
      | some nm =>
        (cur, [⟨"export", nm, [("line", .num n), ("scope", .str (scopeOf cur))]⟩], [])
      | none =>
        match matchSource (stripChars rawLine.toList) with
        | some p =>
          (cur, [], [[("type", .str "source"), ("path", .str p), ("line", .num n)]])
        | none => (cur, [], [])

/-- The `for line_num, line in enumerate(content.splitlines(), 1)` loop. -/
def shellScan (cur : Option String) (n : Nat) :
    List String → List HAStructure × List Attrs
  | [] => ([], [])
  | l :: ls =>
    let st := shellStep cur n l
    let rest := shellScan st.1 (n + 1) ls
    (st.2.1 ++ rest.1, st.2.2 ++ rest.2)

/-- `_parse_shell`. -/
def parseShell (content : String) : HAParseResult :=
  let r := shellScan none 1 (splitlines content)
  ⟨"shell", r.1, r.2, []⟩

/-- The `current_function` value reached after processing a list of lines
(set exactly by the function-header branch and never cleared). -/
def shellCur (cur : Option String) : List String → Option String
  | [] => cur
  | l :: ls =>
    shellCur
      (match matchFunctionDef (stripChars l.toList) with
       | some f => some f
       | none => cur) ls

/-- Whether a raw line is recognised as a shell function header. -/
def isShellHeader (l : String) : Bool :=
  (matchFunctionDef (stripChars l.toList)).isSome

/-- Structures emitted by the `_parse_shell` loop body at the line following
a given prefix of lines, from the state reached after that prefix. -/
def shellLineStructures (pre : List String) (ln : String) : List HAStructure :=
  (shellStep (shellCur none pre) (pre.length + 1) ln).2.1

/-! ## Makefile extractor (`_parse_makefile`) -/

/-- `^(\w+)SUF\s*=\s*(.*)$` for a literal word-character suffix `SUF` such as
`_VERSION`: the greedy `\w+` must end exactly where `SUF` ends (every
character of `SUF` is a word character and `=`/whitespace are not), so the
pattern matches iff the maximal word run ends with `SUF`, has at least one
character before it, and is followed by optional spaces and `=`.  Group 1 is
the word run without `SUF`; group 2 is the rest of the line after `\s*`. -/
def matchPkgSuffix (suf : List Char) (cs : List Char) : Option (String × String) :=
  let w := cs.takeWhile isWordChar
  if suf.isSuffixOf w && suf.length < w.length then
    match (cs.dropWhile isWordChar).dropWhile isSpaceChar with
    | '=' :: v =>
      some (String.mk (w.take (w.length - suf.length)),
            String.mk (v.dropWhile isSpaceChar))
    | _ => none
  else none

/-- Shortest prefix followed by `))` (the lazy `(.*?)` before `\)\)`). -/
def evalCapture : List Char → Option (List Char × List Char)
  | ')' :: ')' :: r => some ([], r)
  | c :: r =>
    match evalCapture r with
    | some (a, b) => some (c :: a, b)
    | none => none
  | [] => none

/-- `\$\(eval\s+\$\((.*?)\)\)` at a fixed position: after `$(eval`, at least
one space, then `$(`, then the lazy group runs to the first `))`.  Returns
(group 0, group 1). -/
def matchEvalAt (cs : List Char) : Option (String × String) :=
  match cs with
  | '$' :: '(' :: 'e' :: 'v' :: 'a' :: 'l' :: c :: r =>
    if isSpaceChar c then
      let sp := r.takeWhile isSpaceChar
      match r.dropWhile isSpaceChar with
      | '$' :: '(' :: r2 =>
        match evalCapture r2 with
        | some (cap, _) =>
          some (String.mk (('$' :: '(' :: 'e' :: 'v' :: 'a' :: 'l' :: c :: sp) ++
                  '$' :: '(' :: (cap ++ [')', ')'])),
                String.mk cap)
        | none => none
      | _ => none
    else none
  | _ => none

/-- Unanchored `re.search` over the line for the eval pattern: leftmost
matching position wins. -/
def searchEval : List Char → Option (String × String)
  | [] => none
  | cs@(_ :: t) =>
    match matchEvalAt cs with
    | some x => some x
    | none => searchEval t

/-- One iteration of the `_parse_makefile` loop. -/
def makefileStep (n : Nat) (rawLine : String) :
    List HAStructure × List Attrs :=
  let line := stripChars rawLine.toList
  match matchPkgSuffix "_VERSION".toList line with
  | some (nm, ver) =>
    ([⟨"package_version", nm, [("version", .str ver), ("line", .num n)]⟩], [])
  | none =>
    match matchPkgSuffix "_DEPENDENCIES".toList line with
    | some (nm, rhs) =>
      ([], (splitWs rhs).map fun dep =>
        [("from", .str nm), ("to", .str dep), ("type", .str "package_dependency")])
    | none =>
      match searchEval line with
      | some (full, nm) =>
        ([⟨"eval", nm, [("line", .num n), ("full_eval", .str full)]⟩], [])
      | none => ([], [])

def makefileScan (n : Nat) : List String → List HAStructure × List Attrs
  | [] => ([], [])
  | l :: ls =>
    let st := makefileStep n l
    let rest := makefileScan (n + 1) ls
    (st.1 ++ rest.1, st.2 ++ rest.2)

/-- `_parse_makefile`. -/
def parseMakefile (content : String) : HAParseResult :=
  let r := makefileScan 1 (splitlines content)
  ⟨"makefile", r.1, r.2, []⟩

/-! ## General-source extractor (`_parse_python`)

The Python standard-library `ast` module is external to the repository; it
is supplied as an oracle producing either a syntax error or the `ast.walk`
node sequence, carrying for each node exactly the fields the extractor
reads. -/

/-- An expression as inspected by the extractor: either an `ast.Name` (with
its `id`) or anything else. -/
inductive PyExpr where
  | name (id : String)
  | other

/-- A node of the `ast.walk` sequence, restricted to the fields read by
`_parse_python`. -/
inductive PyNode where
  | functionDef (name : String) (argNames : List String) (decorators : List PyExpr)
  | classDef (name : String) (bases : List PyExpr) (body : List PyNode)
  | imp (names : List String)
  | impFrom (module : Option String) (names : List String)
  | other

/-- `module` attribute of an `ImportFrom` (None for relative imports). -/
def optStrVal : Option String → AttrVal
  | some s => .str s
  | none => .noneV

/-- Dispatch of one walked node, mirroring the `isinstance` chain. -/
def pyNodeStep (acc : List HAStructure × List Attrs) (node : PyNode) :
    List HAStructure × List Attrs :=
  match node with
  | .functionDef nm args decs =>
    (acc.1 ++ [⟨"function", nm,
       [("args", .strList args),
        ("decorators", .strList (decs.filterMap fun e =>
           match e with | .name i => some i | .other => none))]⟩], acc.2)
  | .classDef nm bases body =>
    (acc.1 ++ [⟨"class", nm,
       [("bases", .strList (bases.filterMap fun e =>
           match e with | .name i => some i | .other => none)),
        ("methods", .strList (body.filterMap fun m =>
           match m with | .functionDef f _ _ => some f | _ => none))]⟩], acc.2)
  | .imp names =>
    (acc.1, acc.2 ++ names.map fun n => [("type", .str "import"), ("name", .str n)])
  | .impFrom md names =>
    (acc.1, acc.2 ++ [[("type", .str "import_from"), ("module", optStrVal md),
                       ("names", .strList names)]])
  | .other => acc

/-- `_parse_python`, parameterised by the `ast` oracle.  `Except.error`
models `ast.parse` raising `SyntaxError`, which the source catches. -/
def parsePython (astParse : String → Except Unit (List PyNode))
    (content : String) : HAParseResult :=
  match astParse content with
  | .error _ =>
    ⟨"python",
     [⟨"error", "syntax_error", [("message", .str "Invalid Python syntax")]⟩],
     [], []⟩
  | .ok nodes =>
    let r := nodes.foldl pyNodeStep ([], [])
    ⟨"python", r.1, r.2, []⟩

/-- An oracle whose parse always yields an empty module. -/
def astEmpty : String → Except Unit (List PyNode) := fun _ => Except.ok []

/-- An oracle whose parse always raises `SyntaxError`. -/
def astAllFail : String → Except Unit (List PyNode) := fun _ => Except.error ()

/-! ## Boot-script extractor (`_parse_uboot_script`) -/

/-- `setenv\s+(\w+)\s+\"?([^\"]+)\"?` at a fixed position.  The optional
opening quote is taken greedily; `[^\"]+` is the maximal nonempty run of
non-quote characters; the optional closing quote needs no check (it can
always match empty). -/
def matchEnvVarAt (cs : List Char) : Option (String × String) :=
  match cs with
  | 's' :: 'e' :: 't' :: 'e' :: 'n' :: 'v' :: c :: r =>
    if isSpaceChar c then
      let r2 := r.dropWhile isSpaceChar
      let w := r2.takeWhile isWordChar
      if w.isEmpty then none
      else
        match r2.dropWhile isWordChar with
        | c2 :: r3 =>
          if isSpaceChar c2 then
            let r4 := r3.dropWhile isSpaceChar
            match r4 with
            | '"' :: r5 =>
              let v := r5.takeWhile (fun ch => !(ch = '"'))
              if v.isEmpty then none else some (String.mk w, String.mk v)
            | _ =>
              let v := r4.takeWhile (fun ch => !(ch = '"'))
              if v.isEmpty then none else some (String.mk w, String.mk v)
          else none
        | [] => none
    else none
  | _ => none

def searchEnvVar : List Char → Option (String × String)
  | [] => none
  | cs@(_ :: t) =>
    match matchEnvVarAt cs with
    | some x => some x
    | none => searchEnvVar t

/-- `^(boot[zi])\s+(.*)$`. -/
def matchBootCmd (cs : List Char) : Option (String × String) :=
  match cs with
  | 'b' :: 'o' :: 'o' :: 't' :: z :: c :: r =>
    if (z = 'z' || z = 'i') && isSpaceChar c then
      some (String.mk ['b', 'o', 'o', 't', z], String.mk (r.dropWhile isSpaceChar))
    else none
  | _ => none

/-- Candidate splits of a `\$\{.*?\}` group body: for each `}` in order, the
segment up to and including it, paired with the rest.  The lazy group takes
the first candidate for which the remainder of the pattern matches. -/
def closeSplits : List Char → List (List Char × List Char)
  | [] => []
  | c :: r =>
    if c = '}' then ([c], r) :: (closeSplits r).map (fun p => (c :: p.1, p.2))
    else (closeSplits r).map (fun p => (c :: p.1, p.2))

/-- `\$\{.*?\}` at a fixed position: all candidate (group, rest) pairs in
lazy order; the group includes the surrounding `${`…`}`. -/
def braceCandidates (cs : List Char) : List (List Char × List Char) :=
  match cs with
  | '$' :: '{' :: r => (closeSplits r).map fun p => ('$' :: '{' :: p.1, p.2)
  | _ => []

/-- Tail of the load pattern after the literal `load`:
`\s+(\w+)\s+(\$\{.*?\})\s+(\$\{.*?\})\s+(.*)`.  Returns (device, address,
file) = groups 2, 3 and 5; group 4 is matched but unused by the source. -/
def matchLoadAfter (cs : List Char) : Option (String × String × String) :=
  match cs with
  | c :: r =>
    if isSpaceChar c then
      let r2 := r.dropWhile isSpaceChar
      let w := r2.takeWhile isWordChar
      if w.isEmpty then none
      else
        match r2.dropWhile isWordChar with
        | c2 :: r3 =>
          if isSpaceChar c2 then
            firstSome (braceCandidates (r3.dropWhile isSpaceChar)) fun p3 =>
              match p3.2 with
              | c3 :: r5 =>
                if isSpaceChar c3 then
                  firstSome (braceCandidates (r5.dropWhile isSpaceChar)) fun p4 =>
                    match p4.2 with
                    | c4 :: r7 =>
                      if isSpaceChar c4 then
                        some (String.mk w, String.mk p3.1,
                              String.mk (r7.dropWhile isSpaceChar))
                      else none
                    | [] => none
                else none
              | [] => none
          else none
        | [] => none
    else none
  | [] => none

/-- `(fat)?load\s+...` at a fixed position: greedy optional `(fat)` first,
plain `load` on failure.  Returns (group 1, device, address, file). -/
def matchLoadAt (cs : List Char) : Option (Option String × String × String × String) :=
  let withFat :=
    match cs with
    | 'f' :: 'a' :: 't' :: 'l' :: 'o' :: 'a' :: 'd' :: r =>
      (matchLoadAfter r).map fun d => (some "fat", d)
    | _ => none
  match withFat with
  | some x => some x
  | none =>
    match cs with
    | 'l' :: 'o' :: 'a' :: 'd' :: r => (matchLoadAfter r).map fun d => (none, d)
    | _ => none

def searchLoad : List Char → Option (Option String × String × String × String)
  | [] => none
  | cs@(_ :: t) =>
    match matchLoadAt cs with
    | some x => some x
    | none => searchLoad t

/-- One iteration of the `_parse_uboot_script` loop. -/
def ubootStep (n : Nat) (rawLine : String) : List HAStructure :=
  let line := stripChars rawLine.toList
  match searchEnvVar line with
  | some (nm, v) =>
    [⟨"uboot_env", nm, [("value", .str v), ("line", .num n)]⟩]
  | none =>
    match matchBootCmd line with
    | some (nm, params) =>
      [⟨"boot_command", nm, [("parameters", .str params), ("line", .num n)]⟩]
    | none =>
      match searchLoad line with
      | some (g1, dev, addr, file) =>
        [⟨"load_command", g1.getD "load",
          [("device", .str dev), ("address", .str addr),
           ("file", .str file), ("line", .num n)]⟩]
      | none => []

def ubootScan (n : Nat) : List String → List HAStructure
  | [] => []
  | l :: ls => ubootStep n l ++ ubootScan (n + 1) ls

/-- `_parse_uboot_script` (its `dependencies` list is never appended to). -/
def parseUbootScript (content : String) : HAParseResult :=
  ⟨"uboot_script", ubootScan 1 (splitlines content), [], []⟩

/-! ## Option-descriptor extractor (`_parse_config_in`)

The block pattern `config\s+(\w+)\s*\n\s*(.*?)(?=\n\w|$)` is matched with
`finditer` over the whole document.  Without `re.DOTALL` the lazy body group
cannot cross a newline, and `$` matches at the end of the string or before a
final newline. -/

/-- The lookahead `(?=\n\w|$)`. -/
def lookNW : List Char → Bool
  | [] => true
  | ['\n'] => true
  | '\n' :: c :: _ => isWordChar c
  | _ => false

/-- The lazy `(.*?)(?=\n\w|$)`: shortest newline-free prefix whose suffix
satisfies the lookahead.  Returns (captured body, rest at the lookahead). -/
def lazyToLook (cs : List Char) : Option (List Char × List Char) :=
  if lookNW cs then some ([], cs)
  else
    match cs with
    | c :: r =>
      if c = '\n' then none
      else (lazyToLook r).map fun p => (c :: p.1, p.2)
    | [] => none

/-- Indices of `\n` inside a character list. -/
def nlIndices (l : List Char) : List Nat :=
  (List.range l.length).filter fun i => l.getD i ' ' = '\n'

/-- `\s*\n\s*(.*?)(?=\n\w|$)` at a fixed position.  Both `\s*` live inside
the maximal whitespace run `W`; the greedy first `\s*` is retried from the
last `\n` of `W` backwards, the greedy second `\s*` from the longest suffix
of `W` backwards, then the lazy body expands forward to the lookahead. -/
def configTail (cs : List Char) : Option (String × List Char) :=
  let wlen := (cs.takeWhile isSpaceChar).length
  firstSome (nlIndices (cs.take wlen)).reverse fun i =>
    firstSome ((List.range (wlen - (i + 1) + 1)).reverse) fun j =>
      (lazyToLook (cs.drop (i + 1 + j))).map fun p => (String.mk p.1, p.2)

/-- The block pattern at a fixed position: `config`, `\s+`, name, then the
tail.  Returns (name, body, rest after the match). -/
def matchConfigAt (cs : List Char) : Option (String × String × List Char) :=
  match cs with
  | 'c' :: 'o' :: 'n' :: 'f' :: 'i' :: 'g' :: c :: r =>
    if isSpaceChar c then
      let r2 := r.dropWhile isSpaceChar
      let w := r2.takeWhile isWordChar
      if w.isEmpty then none
      else
        (configTail (r2.dropWhile isWordChar)).map fun p =>
          (String.mk w, p.1, p.2)
    else none
  | _ => none

/-- `finditer`: scan for the leftmost match, emit it, resume after its end.
Each match consumes at least one character, so fuel `length + 1` is enough. -/
def configFindIter : Nat → List Char → List (String × String)
  | 0, _ => []
  | _ + 1, [] => []
  | fuel + 1, cs@(_ :: t) =>
    match matchConfigAt cs with
    | some (nm, body, rest) => (nm, body) :: configFindIter fuel rest
    | none => configFindIter fuel t

/-- `bool\s+\"([^\"]+)\"` at a fixed position. -/
def matchBoolAt (cs : List Char) : Option String :=
  match cs with
  | 'b' :: 'o' :: 'o' :: 'l' :: c :: r =>
    if isSpaceChar c then
      match r.dropWhile isSpaceChar with
      | '"' :: r2 =>
        let v := r2.takeWhile (fun ch => !(ch = '"'))
        if v.isEmpty then none
        else
          match r2.drop v.length with
          | '"' :: _ => some (String.mk v)
          | _ => none
      | _ => none
    else none
  | _ => none

def searchBool : List Char → Option String
  | [] => none
  | cs@(_ :: t) =>
    match matchBoolAt cs with
    | some x => some x
    | none => searchBool t

/-- `depends\s+on\s+(.+)$` at a fixed position (the body never contains a
newline, so `$` is the end of the body). -/
def matchDependsAt (cs : List Char) : Option String :=
  match cs with
  | 'd' :: 'e' :: 'p' :: 'e' :: 'n' :: 'd' :: 's' :: c :: r =>
    if isSpaceChar c then
      match r.dropWhile isSpaceChar with
      | 'o' :: 'n' :: c2 :: r2 =>
        if isSpaceChar c2 then
          let v := r2.dropWhile isSpaceChar
          if v.isEmpty then none else some (String.mk v)
        else none
      | _ => none
    else none
  | _ => none

def searchDepends : List Char → Option String
  | [] => none
  | cs@(_ :: t) =>
    match matchDependsAt cs with
    | some x => some x
    | none => searchDepends t

/-- `help\s*\n(.*?)(?=\n\w|$)` at a fixed position: the `\s*` is retried
from the last `\n` of the whitespace run backwards, then the lazy body
expands to the lookahead.  (A body captured by the block pattern never
contains a newline, so on such bodies this never matches.) -/
def matchHelpAt (cs : List Char) : Option String :=
  match cs with
  | 'h' :: 'e' :: 'l' :: 'p' :: r =>
    let wlen := (r.takeWhile isSpaceChar).length
    firstSome (nlIndices (r.take wlen)).reverse fun i =>
      (lazyToLook (r.drop (i + 1))).map fun p => String.mk p.1
  | _ => none

def searchHelp : List Char → Option String
  | [] => none
  | cs@(_ :: t) =>
    match matchHelpAt cs with
    | some x => some x
    | none => searchHelp t

/-- Dict upsert: update the value in place if the key exists (keeping its
position, as Python dicts do), otherwise append. -/
def setAttr : Attrs → String → AttrVal → Attrs
  | [], k, v => [(k, v)]
  | (k0, v0) :: t, k, v =>
    if k0 = k then (k0, v) :: t else (k0, v0) :: setAttr t k v

/-- Processing of one `config` block: the `details` dict starts as
`{"type": "unknown"}`, the bool check may overwrite `type` and add
`prompt`, the depends check appends one dependency, the help check appends
`help`. -/
def configBlock (nm body : String) : HAStructure × List Attrs :=
  let bcs := body.toList
  let d0 : Attrs := [("type", .str "unknown")]
  let d1 :=
    match searchBool bcs with
    | some p => setAttr (setAttr d0 "type" (.str "bool")) "prompt" (.str p)
    | none => d0
  let deps :=
    match searchDepends bcs with
    | some dep => [[("from", .str nm), ("to", .str dep), ("type", .str "depends")]]
    | none => ([] : List Attrs)
  let d2 :=
    match searchHelp bcs with
    | some h => setAttr d1 "help" (.str (stripStr h))
    | none => d1
  (⟨"config_option", nm, d2⟩, deps)

def configBlocks : List (String × String) → List HAStructure × List Attrs
  | [] => ([], [])
  | (nm, body) :: bs =>
    let b := configBlock nm body
    let rest := configBlocks bs
    (b.1 :: rest.1, b.2 ++ rest.2)

/-- `_parse_config_in`. -/
def parseConfigIn (content : String) : HAParseResult :=
  let cs := content.toList
  let r := configBlocks (configFindIter (cs.length + 1) cs)
  ⟨"config_in", r.1, r.2, []⟩

/-! ## Image-layout extractor (`_parse_genimage`)

The loop processes raw (unstripped) lines.  The second branch of the
`if`/`elif` chain is written in the source as

  `elif match := re.search(patterns["size"], line) and current_image:`

Operator precedence binds this as `match := (re.search(...) and
current_image)`, so when the size pattern matches and an image is open,
`match` holds the *string* `current_image`; the branch body then calls
`match.group(1)`, which raises `AttributeError` on the first structure whose
name equals the open image.  The raise is modelled as `Except.error` and
propagates out of `_parse_genimage` to `ingest`'s catch-all. -/

def isQuoteChar (c : Char) : Bool := c = '"' || c = Char.ofNat 39

/-- `str.strip('"\'')`: strip leading and trailing quote characters. -/
def stripQuotes (s : String) : String :=
  String.mk (((s.toList.dropWhile isQuoteChar).reverse.dropWhile isQuoteChar).reverse)

/-- Candidate splits of `[\"'].*?[\"']` after the opening quote: for each
quote character in order, the segment up to and including it, with the
rest. -/
def quoteSplits : List Char → List (List Char × List Char)
  | [] => []
  | c :: r =>
    if isQuoteChar c then ([c], r) :: (quoteSplits r).map (fun p => (c :: p.1, p.2))
    else (quoteSplits r).map (fun p => (c :: p.1, p.2))

/-- `^image\s+([\"'].*?[\"']|\S+)\s*{`: the quoted alternative is tried
first (lazily, to each closing quote in turn, each followed by `\s*{`); on
failure the `\S+` alternative backtracks from the maximal non-space run to
the last `{` inside it. -/
def matchImageDef (cs : List Char) : Option String :=
  match cs with
  | 'i' :: 'm' :: 'a' :: 'g' :: 'e' :: c :: r =>
    if isSpaceChar c then
      let r2 := r.dropWhile isSpaceChar
      match r2 with
      | [] => none
      | q :: rest =>
        let quoted :=
          if isQuoteChar q then
            firstSome (quoteSplits rest) fun p =>
              match p.2.dropWhile isSpaceChar with
              | b :: _ => if b = '{' then some (String.mk (q :: p.1)) else none
              | [] => none
          else none
        match quoted with
        | some g => some g
        | none =>
          let T := r2.takeWhile (fun ch => !isSpaceChar ch)
          if T.isEmpty then none
          else
            let fullOk :=
              match (r2.drop T.length).dropWhile isSpaceChar with
              | b :: _ => b == '{'
              | [] => false
            if fullOk then some (String.mk T)
            else
              match ((List.range T.length).filter fun k =>
                      1 ≤ k && T.getD k ' ' = '{').reverse with
              | k :: _ => some (String.mk (T.take k))
              | [] => none
    else none
  | _ => none

/-- Whether `^\s*size\s*=\s*([\"'].*?[\"']|\S+)` matches the line: after
`size`, optional spaces and `=`, the group matches iff anything non-space
remains (a lone quote character still satisfies the `\S+` alternative).
Only truthiness of this match is consulted by the source. -/
def matchSizeLine (cs : List Char) : Bool :=
  match cs.dropWhile isSpaceChar with
  | 's' :: 'i' :: 'z' :: 'e' :: r =>
    match r.dropWhile isSpaceChar with
    | '=' :: r2 => !(r2.dropWhile isSpaceChar).isEmpty
    | _ => false
  | _ => false

/-- Lazy capture of `[\"'](.*?)[\"']\)`: shortest prefix followed by a quote
character and `)`. -/
def incCapture : List Char → Option (List Char)
  | [] => none
  | c :: r =>
    if isQuoteChar c then
      match r with
      | ')' :: _ => some []
      | _ => (incCapture r).map fun a => c :: a
    else (incCapture r).map fun a => c :: a

/-- `^\s*include\([\"'](.*?)[\"']\)`. -/
def matchIncludeLine (cs : List Char) : Option String :=
  match cs.dropWhile isSpaceChar with
  | 'i' :: 'n' :: 'c' :: 'l' :: 'u' :: 'd' :: 'e' :: '(' :: q :: rest =>
    if isQuoteChar q then (incCapture rest).map String.mk else none
  | _ => none

/-- Loop state of `_parse_genimage`. -/
structure GenSt where
  cur : Option String
  structs : List HAStructure
deriving DecidableEq

/-- Message of the uncaught `AttributeError` (paraphrased without quote
characters; only its presence matters downstream). -/
def genimageCrashMsg : String := "AttributeError: str object has no attribute group"

/-- One iteration of the `_parse_genimage` loop.  In the size branch the
truthiness of `re.search(...) and current_image` also requires the open
image name to be non-empty (Python strings are falsy when empty). -/
def genimageStep (st : GenSt) (n : Nat) (line : String) : Except String GenSt :=
  let cs := line.toList
  match matchImageDef cs with
  | some g =>
    let nm := stripQuotes g
    Except.ok ⟨some nm,
      st.structs ++ [⟨"image", nm, [("line", .num n), ("properties", .attrMap [])]⟩]⟩
  | none =>
    match st.cur with
    | some img =>
      if matchSizeLine cs && !(img = "") then
        if st.structs.any fun s => s.name = img then
          Except.error genimageCrashMsg
        else Except.ok st
      else
        match matchIncludeLine cs with
        | some p =>
          Except.ok ⟨st.cur, st.structs ++ [⟨"include", p, [("line", .num n)]⟩]⟩
        | none => Except.ok st
    | none =>
      match matchIncludeLine cs with
      | some p =>
        Except.ok ⟨st.cur, st.structs ++ [⟨"include", p, [("line", .num n)]⟩]⟩
      | none => Except.ok st

def genimageScan (st : GenSt) (n : Nat) : List String → Except String GenSt
  | [] => Except.ok st
  | l :: ls =>
    match genimageStep st n l with
    | Except.ok st2 => genimageScan st2 (n + 1) ls
    | Except.error e => Except.error e

/-- `_parse_genimage`: returns the result, or the uncaught exception. -/
def parseGenimage (content : String) : Except String HAParseResult :=
  (genimageScan ⟨none, []⟩ 1 (splitlines content)).map fun st =>
    ⟨"genimage", st.structs, [], []⟩

/-! ## Aggregator (`_format_content`) and `ingest` -/

/-- Python `repr` of a string: wrapped in single quotes (escaping of quote
characters inside the string is not modelled; no extracted value contains
one). -/
def pyReprStr (s : String) : String :=
  String.mk (Char.ofNat 39 :: (s.toList ++ [Char.ofNat 39]))

/-- Python `str()` of a detail value, as interpolated by the f-strings of
`_format_content`: strings verbatim, ints in decimal, `None` as `None`,
lists and dicts via `repr` of their elements. -/
def pyStr : AttrVal → String
  | .str s => s
  | .num n => toString n
  | .noneV => "None"
  | .strList xs => "[" ++ String.intercalate ", " (xs.map pyReprStr) ++ "]"
  | .attrMap kvs =>
    "\x7b" ++
      String.intercalate ", "
        (kvs.map fun kv => pyReprStr kv.1 ++ ": " ++ pyReprStr kv.2) ++
    "\x7d"

/-- Lines contributed by one structure: `[type] name` then one indented
`key: value` line per detail entry. -/
def structLines (s : HAStructure) : List String :=
  ("[" ++ s.type ++ "] " ++ s.name) ::
    s.details.map fun kv => "  " ++ kv.1 ++ ": " ++ pyStr kv.2

/-- `dep.get('type', 'unknown')` as rendered in the dependency header. -/
def depHeaderVal (d : Attrs) : String :=
  match List.lookup "type" d with
  | some v => pyStr v
  | none => "unknown"

/-- Lines contributed by one dependency: `[dependency] <type>` then one
indented line per entry other than the `type` key. -/
def depLines (d : Attrs) : List String :=
  ("[dependency] " ++ depHeaderVal d) ::
    (d.filter fun kv => !(kv.1 = "type")).map fun kv =>
      "  " ++ kv.1 ++ ": " ++ pyStr kv.2

/-- `_format_content`. -/
def formatContent (pr : HAParseResult) : String :=
  String.intercalate "\n"
    ((pr.structures.map structLines).flatten ++ (pr.dependencies.map depLines).flatten)

/-- The suffix routing table of `ingest` (the six `if`/`elif` arms). -/
def supportedSuffixes : List String := [".mk", ".sh", ".py", ".ush", ".in", ".cfg"]

/-- The routing stage of `ingest`: `None` when no arm fires (unsupported
suffix); otherwise the selected extractor's outcome, where `Except.error`
is an exception propagating to the surrounding `try`.  Only `_parse_genimage`
can raise; the other five extractors are total. -/
def routeParse (astParse : String → Except Unit (List PyNode)) (doc : Document) :
    Option (Except String HAParseResult) :=
  if suffixLower doc.filename = ".mk" then some (Except.ok (parseMakefile doc.content))
  else if suffixLower doc.filename = ".sh" then some (Except.ok (parseShell doc.content))
  else if suffixLower doc.filename = ".py" then some (Except.ok (parsePython astParse doc.content))
  else if suffixLower doc.filename = ".ush" then some (Except.ok (parseUbootScript doc.content))
  else if suffixLower doc.filename = ".in" then some (Except.ok (parseConfigIn doc.content))
  else if suffixLower doc.filename = ".cfg" then some (parseGenimage doc.content)
  else none

/-- The metadata dict built for a successful parse. -/
def successMeta (pr : HAParseResult) : Metadata :=
  Metadata.success pr.file_type
    (pr.structures.map fun s => ⟨s.type, s.name, s.details⟩)
    pr.dependencies pr.relationships

/-- `HomeAssistantParser.ingest`: always exactly one emission.  A parse
result (dataclass instances are truthy) yields the structured record; no
result yields the unsupported-type error; an exception reaching the
surrounding `try` yields the error record with `str(e)`. -/
def ingest (astParse : String → Except Unit (List PyNode)) (doc : Document) :
    List DocumentExtraction :=
  match routeParse astParse doc with
  | some (Except.ok pr) => [⟨formatContent pr, successMeta pr⟩]
  | some (Except.error e) => [⟨"", Metadata.error e⟩]
  | none => [⟨"", Metadata.error "Unsupported file type"⟩]

/-! ## Generic parser (`generic_parser.py`) -/

/-- `REPO_PARSERS` registry. -/
def REPO_PARSERS : List (String × String) := [("home-assistant", "HAParser")]

/-- Names defined at top level of the `ha_parser` module, the target of the
dynamic import: it defines `HomeAssistantParser`, not `HAParser`. -/
def haModuleExports : List String :=
  ["HAStructure", "HAParseResult", "HomeAssistantParser"]

/-- A constructed repository-specific extractor instance. -/
inductive RepoParserInstance where
  | homeAssistant
deriving DecidableEq

/-- `_get_parser_for_repo`: `None` for a tag missing from the registry;
for `"home-assistant"`, `from .ha_parser import HAParser` raises
`ImportError` (the name is not defined by that module), which the source
catches and converts to `None`. -/
def getParserForRepo (repoType : String) : Option RepoParserInstance :=
  match List.lookup repoType REPO_PARSERS with
  | none => none
  | some _ =>
    if repoType = "home-assistant" then
      if haModuleExports.contains "HAParser" then some RepoParserInstance.homeAssistant
      else none
    else none

/-- `_detect_repo_type`. -/
def detectRepoType (path : String) : String :=
  let p := (lowerStr path).toList
  if containsSub p "home-assistant".toList || containsSub p "hassio".toList ||
     containsSub p "homeassistant".toList then "home-assistant"
  else "unknown"

/-- An emission of `GenericCodeParser.ingest`: the declared type yields
plain strings; a forwarded specific-parser chunk is a record. -/
inductive GenEmission where
  | text (s : String)
  | record (e : DocumentExtraction)
deriving DecidableEq

/-- `GenericCodeParser.ingest`: empty string when no filename was passed;
forwarded chunks when a specific parser exists (unreachable: the import
always fails); otherwise the decoded text fallback (`bytes.decode` with
`errors="ignore"` cannot raise; content is modelled as text). -/
def genericIngest (astParse : String → Except Unit (List PyNode))
    (filename : String) (data : String) : List GenEmission :=
  if filename = "" then [GenEmission.text ""]
  else
    match getParserForRepo (detectRepoType filename) with
    | some RepoParserInstance.homeAssistant =>
      (ingest astParse ⟨filename, data⟩).map GenEmission.record
    | none => [GenEmission.text data]

/-! ## Vector storage pipe (`vector_storage_pipe.py`) -/

/-- A `VectorEntry` restricted to the fields `_run_logic` reads. -/
structure VectorEntry where
  document_id : Nat
  chunk : String
deriving DecidableEq

/-- `StorageResult`. -/
structure StorageResult where
  document_id : Nat
  num_chunks : Nat
  success : Bool
deriving DecidableEq

/-- Default of the `storage_batch_size` constructor argument. -/
def storageBatchSizeDefault : Nat := 128

/-- `document_counts[id] = document_counts.get(id, 0) + 1` on an
insertion-ordered dict. -/
def bumpCount : List (Nat × Nat) → Nat → List (Nat × Nat)
  | [], d => [(d, 1)]
  | (k, v) :: t, d =>
    if k = d then (k, v + 1) :: t else (k, v) :: bumpCount t d

/-- The entry loop of `_run_logic`: append to the pending batch, count the
document, flush when the batch reaches `storage_batch_size`.  Returns the
flushed batches in order, the still-pending batch, and the counts dict. -/
def runLoop (bs : Nat) :
    List VectorEntry → List VectorEntry → List (Nat × Nat) →
    List (List VectorEntry) × List VectorEntry × List (Nat × Nat)
  | [], batch, counts => ([], batch, counts)
  | e :: rest, batch, counts =>
    let batch2 := batch ++ [e]
    let counts2 := bumpCount counts e.document_id
    if bs ≤ batch2.length then
      let r := runLoop bs rest [] counts2
      (batch2 :: r.1, r.2.1, r.2.2)
    else runLoop bs rest batch2 counts2

/-- Observable behaviour of one `_run_logic` call: the batches passed to
`store`, the outcome of each `store` call (`false` = the upsert raised, the
exception being caught and logged), and the yielded results. -/
structure RunOut where
  batches : List (List VectorEntry)
  outcomes : List Bool
  results : List StorageResult
deriving DecidableEq

/-- `_run_logic`: flush full batches during the loop and the final partial
batch if non-empty; every `store` failure is caught and only logged; then
yield one `StorageResult` per counted document with `success=True` and the
full count, regardless of the store outcomes. -/
def runLogic (bs : Nat) (storeOk : List VectorEntry → Bool)
    (message : List VectorEntry) : RunOut :=
  let r := runLoop bs message [] []
  let batches := r.1 ++ (if r.2.1.isEmpty then [] else [r.2.1])
  ⟨batches, batches.map storeOk,
   r.2.2.map fun p => ⟨p.1, p.2, true⟩⟩

/-- Modelled from the spec: "still reporting counts accumulated from batches
that did succeed for a given document" — the number of units of document `d`
contained in batches whose store succeeded. -/
def succeededUnits (batches : List (List VectorEntry)) (outcomes : List Bool)
    (d : Nat) : Nat :=
  (((batches.zip outcomes).filter fun p => p.2).map fun p =>
    (p.1.filter fun e => e.document_id = d).length).sum

/-- First-occurrence deduplication of a list of document identifiers. -/
def dedupKeys (l : List Nat) : List Nat :=
  l.foldl (fun acc x => if x ∈ acc then acc else acc ++ [x]) []

/-- `counts.get(d, 0)` on the insertion-ordered dict. -/
def getCount : List (Nat × Nat) → Nat → Nat
  | [], _ => 0
  | (k, v) :: t, d => if k = d then v else getCount t d

/-- The line `export <name>` — the shell line exporting a given name. -/
def exportLineOf (name : String) : String := "export " ++ name

/-- Whether a string lies in the `[A-Z_][A-Z0-9_]*` name language. -/
def goodName (s : String) : Bool :=
  match s.toList with
  | [] => false
  | c :: r => isNameStart c && r.all isNameChar

/-! ## Theorems -/

/-- Helper: the dynamic import of `HAParser` fails for every tag, so
`_get_parser_for_repo` can never return an instance. -/
theorem getParserForRepo_always_none (t : String) : getParserForRepo t = none := by
  unfold getParserForRepo
  by_cases ht : t = "home-assistant"
  · subst ht; decide
  · cases List.lookup t REPO_PARSERS with
    | none => rfl
    | some p => simp [ht]

/-- C1: on a genimage input where an image-definition line has opened a
current image and a later line matches the size pattern, the source does
*not* mutate the structure's property map and return a `ParseResult`: the
walrus binding `match := re.search(...) and current_image` leaves `match`
holding the string `current_image`, so `match.group(1)` raises
`AttributeError`, which escapes `_parse_genimage` and is converted by
`ingest`'s catch-all into an error emission. -/
theorem genimage_size_branch_raises :
    parseGenimage "image sys \x7b\nsize = 64M\n\x7d" = Except.error genimageCrashMsg ∧
    ingest astEmpty ⟨"genimage.cfg", "image sys \x7b\nsize = 64M\n\x7d"⟩ =
      [⟨"", Metadata.error genimageCrashMsg⟩] := by
  constructor
  · rfl
  · decide

/-- C2: `_get_parser_for_repo` indeed never raises and returns `None` for
unregistered tags, but for the registered tag `"home-assistant"` it also
returns `None`: the dynamic `from .ha_parser import HAParser` raises
`ImportError` (the module defines `HomeAssistantParser`), which the source
catches and converts to `None`. -/
theorem get_parser_for_repo_eval :
    getParserForRepo "home-assistant" = none ∧
    getParserForRepo "unknown" = none ∧
    getParserForRepo "other-repo" = none := by
  decide

/-- C7: on the input `FOO() {\n  BAR=1\n  export BAR\n}` the shell extractor
produces exactly one function structure "FOO", one variable structure "BAR"
with scope "FOO", and one export structure "BAR" with scope "FOO", with no
dependencies. -/
theorem shell_example_foo_bar :
    parseShell "FOO() \x7b\n  BAR=1\n  export BAR\n\x7d" =
      ⟨"shell",
       [⟨"function", "FOO", [("line", .num 1), ("commands", .strList [])]⟩,
        ⟨"variable", "BAR",
         [("value", .str "1"), ("line", .num 2), ("scope", .str "FOO")]⟩,
        ⟨"export", "BAR", [("line", .num 3), ("scope", .str "FOO")]⟩],
       [], []⟩ := by
  decide

/-- C6: for every document whose (lower-cased) filename suffix is not one of
the six supported suffixes, `ingest` emits exactly one error record with
empty content and metadata error `"Unsupported file type"`, and does not
raise. -/
theorem unsupported_suffix_error (astParse : String → Except Unit (List PyNode))
    (doc : Document) (h : suffixLower doc.filename ∉ supportedSuffixes) :
    ingest astParse doc = [⟨"", Metadata.error "Unsupported file type"⟩] := by
  simp only [supportedSuffixes, List.mem_cons, List.not_mem_nil, or_false,
    not_or] at h
  obtain ⟨h1, h2, h3, h4, h5, h6⟩ := h
  simp only [ingest, routeParse, if_neg h1, if_neg h2, if_neg h3, if_neg h4,
    if_neg h5, if_neg h6]

/-- Witness for C6 at the suffix `.xyz`. -/
theorem unsupported_suffix_error_witness :
    suffixLower "f.xyz" ∉ supportedSuffixes ∧
    ingest astEmpty ⟨"f.xyz", "anything"⟩ =
      [⟨"", Metadata.error "Unsupported file type"⟩] :=
  ⟨by decide, unsupported_suffix_error astEmpty ⟨"f.xyz", "anything"⟩ (by decide)⟩

/-- C8: whenever the `ast` oracle reports a syntax error (as it does on the
malformed input `def f(:`), `_parse_python` raises nothing and returns a
`ParseResult` with exactly one structure of kind "error" and zero
dependencies. -/
theorem python_syntax_error_result (astParse : String → Except Unit (List PyNode))
    (content : String) (h : astParse content = Except.error ()) :
    parsePython astParse content =
      ⟨"python",
       [⟨"error", "syntax_error", [("message", AttrVal.str "Invalid Python syntax")]⟩],
       [], []⟩ := by
  unfold parsePython
  rw [h]

/-- Witness for C8 on `def f(:` with an oracle that rejects it. -/
theorem python_syntax_error_result_witness :
    astAllFail "def f(:" = Except.error () ∧
    parsePython astAllFail "def f(:" =
      ⟨"python",
       [⟨"error", "syntax_error", [("message", AttrVal.str "Invalid Python syntax")]⟩],
       [], []⟩ :=
  ⟨rfl, python_syntax_error_result astAllFail "def f(:" rfl⟩

/-- C5 counterexample: `GenericCodeParser.ingest` on a file with no
specific parser yields its decoded text as a bare string emission — a
non-empty plain string with no metadata, so neither a structured record nor
an error emission carrying an error description in metadata. -/
theorem generic_fallback_plain_text :
    genericIngest astEmpty "notes.txt" "hello world" =
      [GenEmission.text "hello world"] := by
  decide

/-- C5 amended: neither per-file ingestion call lets an exception escape and
each produces exactly one emission.  For `HomeAssistantParser.ingest` the
emission is a structured success record or an error record with empty
content and an error description in metadata; for `GenericCodeParser.ingest`
the single emission carries no such guarantee (it is a bare string in the
no-filename, fallback and failure cases). -/
theorem ingestion_single_emission :
    (∀ (astParse : String → Except Unit (List PyNode)) (doc : Document),
       ∃ e, ingest astParse doc = [e] ∧
         ((∃ ft ss ds rs, e.metadata = Metadata.success ft ss ds rs) ∨
          (e.content = "" ∧ ∃ m, e.metadata = Metadata.error m))) ∧
    (∀ (astParse : String → Except Unit (List PyNode)) (fn data : String),
       ∃ g, genericIngest astParse fn data = [g]) := by
  constructor
  · intro astParse doc
    unfold ingest
    cases routeParse astParse doc with
    | none => exact ⟨_, rfl, Or.inr ⟨rfl, _, rfl⟩⟩
    | some r =>
      cases r with
      | ok pr => exact ⟨_, rfl, Or.inl ⟨_, _, _, _, rfl⟩⟩
      | error e => exact ⟨_, rfl, Or.inr ⟨rfl, _, rfl⟩⟩
  · intro astParse fn data
    unfold genericIngest
    by_cases hf : fn = ""
    · rw [if_pos hf]; exact ⟨_, rfl⟩
    · rw [if_neg hf, getParserForRepo_always_none]
      exact ⟨_, rfl⟩

/-- C4 counterexample: `disk.cfg` has a supported suffix, yet on an input
whose size line fires the defective branch `ingest` emits an error record,
not a success record with `file_type`/structures metadata. -/
theorem supported_suffix_error_emission :
    suffixLower "disk.cfg" = ".cfg" ∧ ".cfg" ∈ supportedSuffixes ∧
    ingest astEmpty ⟨"disk.cfg", "image rootfs \x7b\n  size = 128M\n\x7d"⟩ =
      [⟨"", Metadata.error genimageCrashMsg⟩] := by
  refine ⟨by decide, by decide, by decide⟩

/-- Helper: a successful `_parse_genimage` run has an empty relationships
list. -/
theorem parseGenimage_ok_relationships (c : String) (pr : HAParseResult)
    (h : parseGenimage c = Except.ok pr) : pr.relationships = [] := by
  unfold parseGenimage at h
  cases hs : genimageScan ⟨none, []⟩ 1 (splitlines c) with
  | ok st => rw [hs] at h; cases h; rfl
  | error e => rw [hs] at h; cases h

/-- Helper: `_parse_python` always returns an empty relationships list. -/
theorem parsePython_relationships (astParse : String → Except Unit (List PyNode))
    (c : String) : (parsePython astParse c).relationships = [] := by
  unfold parsePython
  cases astParse c with
  | ok nodes => rfl
  | error e => rfl

/-- C4 amended: for every input whose suffix selects a supported grammar
*and whose extraction completes without raising* (all `.mk`/`.sh`/`.py`/
`.ush`/`.in` inputs, and the `.cfg` inputs that never reach the size
branch), `ingest` emits one success record whose metadata carries the file
type, the structures as `{type, name, details}` maps in result order, the
dependencies and the always-empty relationships list, and whose content is
the canonical text rendering: one `[kind] name` header line per structure
followed by indented `key: value` lines, then one header per dependency
followed by its entries except the literal `type` key. -/
theorem ingest_success_record (astParse : String → Except Unit (List PyNode))
    (doc : Document) (pr : HAParseResult)
    (h : routeParse astParse doc = some (Except.ok pr)) :
    ingest astParse doc =
      [⟨formatContent pr,
        Metadata.success pr.file_type
          (pr.structures.map fun s => ⟨s.type, s.name, s.details⟩)
          pr.dependencies pr.relationships⟩] ∧
    pr.relationships = [] ∧
    formatContent pr =
      String.intercalate "\n"
        ((pr.structures.map fun s =>
            ("[" ++ s.type ++ "] " ++ s.name) ::
              s.details.map fun kv => "  " ++ kv.1 ++ ": " ++ pyStr kv.2).flatten ++
         (pr.dependencies.map fun d =>
            ("[dependency] " ++ depHeaderVal d) ::
              (d.filter fun kv => !(kv.1 = "type")).map fun kv =>
                "  " ++ kv.1 ++ ": " ++ pyStr kv.2).flatten) := by
  refine ⟨by unfold ingest; rw [h]; rfl, ?_, rfl⟩
  unfold routeParse at h
  split at h
  · cases h; rfl
  · split at h
    · cases h; rfl
    · split at h
      · cases h
        exact parsePython_relationships astParse doc.content
      · split at h
        · cases h; rfl
        · split at h
          · cases h; rfl
          · split at h
            · injection h with h2
              exact parseGenimage_ok_relationships doc.content pr h2
            · cases h

/-- Witness for C4 amended on an (empty) shell document. -/
theorem ingest_success_record_witness :
    routeParse astEmpty ⟨"s.sh", ""⟩ = some (Except.ok (parseShell "")) ∧
    (parseShell "").relationships = [] :=
  ⟨rfl, (ingest_success_record astEmpty ⟨"s.sh", ""⟩ (parseShell "") rfl).2.1⟩

/-! ### Vector storage pipe lemmas (C3) -/

/-- Helper: the counts dict computed by the loop is the plain fold of
`bumpCount` over the message, independent of the batching. -/
theorem runLoop_counts (bs : Nat) (msg : List VectorEntry)
    (batch : List VectorEntry) (counts : List (Nat × Nat)) :
    (runLoop bs msg batch counts).2.2 =
      msg.foldl (fun c e => bumpCount c e.document_id) counts := by
  induction msg generalizing batch counts with
  | nil => rfl
  | cons e rest ih =>
    unfold runLoop
    by_cases hb : bs ≤ (batch ++ [e]).length
    · rw [if_pos hb]
      exact ih [] (bumpCount counts e.document_id)
    · rw [if_neg hb]
      exact ih (batch ++ [e]) (bumpCount counts e.document_id)

/-- Helper: the flushed batches followed by the pending batch recover the
processed entries, in order. -/
theorem runLoop_join (bs : Nat) (msg : List VectorEntry)
    (batch : List VectorEntry) (counts : List (Nat × Nat)) :
    (runLoop bs msg batch counts).1.flatten ++ (runLoop bs msg batch counts).2.1 =
      batch ++ msg := by
  induction msg generalizing batch counts with
  | nil => simp [runLoop]
  | cons e rest ih =>
    unfold runLoop
    by_cases hb : bs ≤ (batch ++ [e]).length
    · rw [if_pos hb]
      simp only [List.flatten_cons, List.append_assoc]
      rw [ih [] (bumpCount counts e.document_id)]
      simp
    · rw [if_neg hb]
      rw [ih (batch ++ [e]) (bumpCount counts e.document_id)]
      simp

/-- Helper: when the pending batch is below the threshold, every flushed
batch has exactly `storage_batch_size` entries. -/
theorem runLoop_batch_sizes (bs : Nat) (msg : List VectorEntry)
    (batch : List VectorEntry) (counts : List (Nat × Nat))
    (hlt : batch.length < bs) :
    ∀ b ∈ (runLoop bs msg batch counts).1, b.length = bs := by
  induction msg generalizing batch counts with
  | nil => intro b hb; cases hb
  | cons e rest ih =>
    intro b hb
    have hlen : (batch ++ [e]).length = batch.length + 1 := by simp
    unfold runLoop at hb
    by_cases hfl : bs ≤ (batch ++ [e]).length
    · rw [if_pos hfl] at hb
      rcases List.mem_cons.mp hb with he | ht
      · subst he
        omega
      · exact ih [] (bumpCount counts e.document_id)
          (by simp only [List.length_nil]; omega) b ht
    · rw [if_neg hfl] at hb
      exact ih (batch ++ [e]) (bumpCount counts e.document_id) (by omega) b hb

/-- Helper: `bumpCount` adds one to the bumped key and leaves the rest. -/
theorem bumpCount_getCount (c : List (Nat × Nat)) (d x : Nat) :
    getCount (bumpCount c d) x = getCount c x + (if x = d then 1 else 0) := by
  induction c with
  | nil =>
    simp only [bumpCount, getCount]
    by_cases h : x = d
    · subst h
      simp
    · rw [if_neg (fun hdx : d = x => h hdx.symm), if_neg h]
  | cons kv t ih =>
    obtain ⟨k, v⟩ := kv
    simp only [bumpCount]
    by_cases hk : k = d
    · subst hk
      rw [if_pos rfl]
      simp only [getCount]
      by_cases hx : k = x
      · subst hx
        rw [if_pos rfl, if_pos rfl, if_pos rfl]
      · have hx2 : ¬x = k := fun h => hx h.symm
        rw [if_neg hx, if_neg hx, if_neg hx2, Nat.add_zero]
    · rw [if_neg hk]
      simp only [getCount]
      by_cases hx : k = x
      · subst hx
        rw [if_pos rfl, if_pos rfl, if_neg (fun h : k = d => hk h), Nat.add_zero]
      · rw [if_neg hx, if_neg hx, ih]

/-- Helper: the effect of `bumpCount` on the key sequence. -/
theorem bumpCount_keys (c : List (Nat × Nat)) (d : Nat) :
    (bumpCount c d).map Prod.fst =
      if d ∈ c.map Prod.fst then c.map Prod.fst else c.map Prod.fst ++ [d] := by
  induction c with
  | nil => simp [bumpCount]
  | cons kv t ih =>
    obtain ⟨k, v⟩ := kv
    simp only [bumpCount]
    by_cases hk : k = d
    · subst hk
      simp [List.mem_cons]
    · rw [if_neg hk]
      simp only [List.map_cons, ih]
      by_cases hd : d ∈ t.map Prod.fst
      · simp [hd, Ne.symm hk]
      · simp [hd, Ne.symm hk]

/-- Helper: `bumpCount` preserves distinctness of keys. -/
theorem bumpCount_nodup (c : List (Nat × Nat)) (d : Nat)
    (h : (c.map Prod.fst).Nodup) : ((bumpCount c d).map Prod.fst).Nodup := by
  rw [bumpCount_keys]
  by_cases hd : d ∈ c.map Prod.fst
  · rwa [if_pos hd]
  · rw [if_neg hd]
    exact List.Nodup.append h (List.nodup_singleton d)
      (by simpa [List.disjoint_singleton] using hd)

/-- Helper: a pair of a distinct-key dict carries its looked-up count. -/
theorem mem_getCount (c : List (Nat × Nat)) (h : (c.map Prod.fst).Nodup)
    (d n : Nat) (hm : (d, n) ∈ c) : getCount c d = n := by
  induction c with
  | nil => cases hm
  | cons kv t ih =>
    obtain ⟨k, v⟩ := kv
    rw [List.map_cons] at h
    have h1 := List.nodup_cons.mp h
    rcases List.mem_cons.mp hm with he | ht
    · cases he
      simp [getCount]
    · have hk : ¬k = d := by
        intro hkd
        subst hkd
        exact h1.1 (List.mem_map.mpr ⟨(k, n), ht, rfl⟩)
      simp only [getCount, if_neg hk]
      exact ih h1.2 ht

/-- Helper: the fold of `bumpCount` counts occurrences per document. -/
theorem foldl_bump_getCount (msg : List VectorEntry) (c : List (Nat × Nat))
    (x : Nat) :
    getCount (msg.foldl (fun c e => bumpCount c e.document_id) c) x =
      getCount c x + (msg.filter fun e => e.document_id = x).length := by
  induction msg generalizing c with
  | nil => simp
  | cons e rest ih =>
    simp only [List.foldl_cons, List.filter_cons]
    rw [ih, bumpCount_getCount]
    by_cases he : e.document_id = x
    · have hx : x = e.document_id := he.symm
      rw [if_pos hx, if_pos (decide_eq_true he), List.length_cons]
      omega
    · have hx : ¬x = e.document_id := fun h => he h.symm
      rw [if_neg hx, if_neg (by simp only [decide_eq_true_eq]; exact he)]
      omega

/-- Helper: the key sequence of the fold is the first-occurrence fold. -/
theorem foldl_bump_keys (msg : List VectorEntry) (c : List (Nat × Nat)) :
    (msg.foldl (fun c e => bumpCount c e.document_id) c).map Prod.fst =
      msg.foldl
        (fun acc e =>
          if e.document_id ∈ acc then acc else acc ++ [e.document_id])
        (c.map Prod.fst) := by
  induction msg generalizing c with
  | nil => rfl
  | cons e rest ih =>
    simp only [List.foldl_cons, ih, bumpCount_keys]

/-- Helper: the fold of `bumpCount` keeps keys distinct. -/
theorem foldl_bump_nodup (msg : List VectorEntry) (c : List (Nat × Nat))
    (h : (c.map Prod.fst).Nodup) :
    ((msg.foldl (fun c e => bumpCount c e.document_id) c).map Prod.fst).Nodup := by
  induction msg generalizing c with
  | nil => exact h
  | cons e rest ih =>
    simp only [List.foldl_cons]
    exact ih _ (bumpCount_nodup c e.document_id h)

/-- C3 counterexample: with a batch size of 1 and a store that always
fails, the sole document still receives `success = True` and a stored-unit
count of 1, although no batch succeeded (zero units were stored). -/
theorem storage_result_counts_failed_batch :
    (runLogic 1 (fun _ => false) [⟨7, "v"⟩]).results =
      [⟨7, 1, true⟩] ∧
    succeededUnits (runLogic 1 (fun _ => false) [⟨7, "v"⟩]).batches
      (runLogic 1 (fun _ => false) [⟨7, "v"⟩]).outcomes 7 = 0 := by
  decide

/-- C3 amended: `_run_logic` flushes in batches of `storage_batch_size`
(default 128, every non-final batch exactly full, all entries flushed in
order), a failed batch is only logged, and it yields exactly one
`StorageResult` per distinct document identifier whose success flag is
always `True` and whose count is the *total* number of input entries for
that document, regardless of which batches succeeded. -/
theorem run_logic_reports_total_counts (bs : Nat)
    (storeOk : List VectorEntry → Bool) (msg : List VectorEntry)
    (hbs : 1 ≤ bs) :
    (runLogic bs storeOk msg).batches.flatten = msg ∧
    (∀ b ∈ (runLogic bs storeOk msg).batches.dropLast, b.length = bs) ∧
    (∀ r ∈ (runLogic bs storeOk msg).results,
       r.success = true ∧
       r.num_chunks = (msg.filter fun e => e.document_id = r.document_id).length) ∧
    (runLogic bs storeOk msg).results.map StorageResult.document_id =
      dedupKeys (msg.map VectorEntry.document_id) ∧
    storageBatchSizeDefault = 128 := by
  have hjoin := runLoop_join bs msg [] []
  have hcounts := runLoop_counts bs msg [] []
  have hsizes := runLoop_batch_sizes bs msg [] [] (by simpa using hbs)
  have hbatches : (runLogic bs storeOk msg).batches =
      (runLoop bs msg [] []).1 ++
        (if (runLoop bs msg [] []).2.1.isEmpty then []
         else [(runLoop bs msg [] []).2.1]) := rfl
  have hresults : (runLogic bs storeOk msg).results =
      ((runLoop bs msg [] []).2.2).map
        (fun p => (⟨p.1, p.2, true⟩ : StorageResult)) := rfl
  refine ⟨?_, ?_, ?_, ?_, rfl⟩
  · rw [hbatches]
    by_cases hp : (runLoop bs msg [] []).2.1 = []
    · rw [if_pos (by simp [hp])]
      rw [hp] at hjoin
      simpa using hjoin
    · rw [if_neg (by simpa using hp)]
      simpa using hjoin
  · intro b hb
    rw [hbatches] at hb
    by_cases hp : (runLoop bs msg [] []).2.1 = []
    · rw [if_pos (by simp [hp]), List.append_nil] at hb
      exact hsizes b ((List.dropLast_sublist _).subset hb)
    · rw [if_neg (by simpa using hp), List.dropLast_concat] at hb
      exact hsizes b hb
  · intro r hr
    rw [hresults] at hr
    rcases List.mem_map.mp hr with ⟨⟨d, n⟩, hm, he⟩
    subst he
    refine ⟨rfl, ?_⟩
    have hnodup : (((runLoop bs msg [] []).2.2).map Prod.fst).Nodup := by
      rw [hcounts]
      exact foldl_bump_nodup msg [] (by simp)
    have hgc := mem_getCount _ hnodup d n hm
    rw [hcounts, foldl_bump_getCount msg [] d] at hgc
    simpa [getCount] using hgc.symm
  · rw [hresults, List.map_map]
    have hcomp : (StorageResult.document_id ∘
        fun p : Nat × Nat => (⟨p.1, p.2, true⟩ : StorageResult)) = Prod.fst := by
      funext p
      rfl
    rw [hcomp, hcounts, foldl_bump_keys msg []]
    unfold dedupKeys
    rw [List.foldl_map]
    rfl

/-- Witness for C3 amended. -/
theorem run_logic_reports_total_counts_witness :
    1 ≤ 2 ∧
    (runLogic 2 (fun _ => false) [⟨1, "a"⟩, ⟨1, "b"⟩, ⟨2, "c"⟩]).batches.flatten =
      [⟨1, "a"⟩, ⟨1, "b"⟩, ⟨2, "c"⟩] :=
  ⟨by decide,
   (run_logic_reports_total_counts 2 (fun _ => false)
     [⟨1, "a"⟩, ⟨1, "b"⟩, ⟨2, "c"⟩] (by decide)).1⟩

/-! ### Shell scope lemmas (C9) -/

/-- Helper: a name captured by the function-header core is the (nonempty)
word run at the start of the line. -/
theorem matchFunDefCore_ne_empty (cs : List Char) (f : String)
    (h : matchFunDefCore cs = some f) : f ≠ "" := by
  unfold matchFunDefCore at h
  by_cases hw : (cs.takeWhile isWordChar).isEmpty
  · rw [if_pos hw] at h
    cases h
  · rw [if_neg hw] at h
    split at h
    · split at h
      · split at h
        · injection h with h2
          subst h2
          intro hnil
          exact hw (by
            have h3 : cs.takeWhile isWordChar = [] := congrArg String.toList hnil
            rw [h3]
            rfl)
        · cases h
      · cases h
    · cases h

/-- Helper: the keyword attempt also only returns core captures. -/
theorem matchFunDefKw_ne_empty (cs : List Char) (f : String)
    (h : matchFunDefKw cs = some f) : f ≠ "" := by
  unfold matchFunDefKw at h
  split at h
  · split at h
    · exact matchFunDefCore_ne_empty _ f h
    · cases h
  · cases h

/-- Helper: a matched function header always captures a nonempty name. -/
theorem matchFunctionDef_ne_empty (cs : List Char) (f : String)
    (h : matchFunctionDef cs = some f) : f ≠ "" := by
  unfold matchFunctionDef at h
  cases hk : matchFunDefKw cs with
  | some g =>
    rw [hk] at h
    injection h with h2
    subst h2
    exact matchFunDefKw_ne_empty cs _ hk
  | none =>
    rw [hk] at h
    exact matchFunDefCore_ne_empty cs f h

/-- Helper: the new `current_function` computed by one loop iteration. -/
theorem shellStep_fst (cur : Option String) (n : Nat) (l : String) :
    (shellStep cur n l).1 =
      match matchFunctionDef (stripChars l.toList) with
      | some f => some f
      | none => cur := by
  unfold shellStep
  cases matchFunctionDef (stripChars l.toList) with
  | some f => rfl
  | none =>
    cases matchVarAssign (stripChars l.toList) with
    | some p =>
      obtain ⟨nm, v⟩ := p
      rfl
    | none =>
      cases matchExport (stripChars l.toList) with
      | some nm => rfl
      | none =>
        cases matchSource (stripChars l.toList) with
        | some p => rfl
        | none => rfl

/-- Helper: the scan decomposes over concatenation of the line list, the
second part starting from the threaded `current_function`. -/
theorem shellScan_append (cur : Option String) (n : Nat) (xs ys : List String) :
    shellScan cur n (xs ++ ys) =
      ((shellScan cur n xs).1 ++ (shellScan (shellCur cur xs) (n + xs.length) ys).1,
       (shellScan cur n xs).2 ++ (shellScan (shellCur cur xs) (n + xs.length) ys).2) := by
  induction xs generalizing cur n with
  | nil => simp [shellScan, shellCur]
  | cons l ls ih =>
    show shellScan cur n (l :: (ls ++ ys)) = _
    simp only [shellScan]
    rw [ih (shellStep cur n l).1 (n + 1)]
    have hcur : shellCur (shellStep cur n l).1 ls = shellCur cur (l :: ls) := by
      simp only [shellCur, shellStep_fst]
    have hlen : n + 1 + ls.length = n + (l :: ls).length := by
      simp only [List.length_cons]
      omega
    rw [hcur, hlen]
    simp [List.append_assoc]

/-- Helper: the threaded `current_function` decomposes over concatenation. -/
theorem shellCur_append (cur : Option String) (xs ys : List String) :
    shellCur cur (xs ++ ys) = shellCur (shellCur cur xs) ys := by
  induction xs generalizing cur with
  | nil => rfl
  | cons l ls ih =>
    simp only [List.cons_append, shellCur]
    exact ih _

/-- Helper: lines with no function header leave `current_function`
unchanged. -/
theorem shellCur_no_header (cur : Option String) (ls : List String)
    (h : ∀ j ∈ ls, isShellHeader j = false) : shellCur cur ls = cur := by
  induction ls generalizing cur with
  | nil => rfl
  | cons l t ih =>
    have hl := h l (List.mem_cons_self l t)
    simp only [isShellHeader, Option.isSome] at hl
    simp only [shellCur]
    cases hm : matchFunctionDef (stripChars l.toList) with
    | some f =>
      rw [hm] at hl
      simp at hl
    | none =>
      exact ih cur fun j hj => h j (List.mem_cons_of_mem l hj)

/-- Helper: once `current_function` holds a nonempty name, it holds a
nonempty name forever. -/
theorem shellCur_keeps_some (cur : Option String) (ls : List String)
    (h : ∃ f, cur = some f ∧ f ≠ "") :
    ∃ f, shellCur cur ls = some f ∧ f ≠ "" := by
  induction ls generalizing cur with
  | nil => exact h
  | cons l t ih =>
    simp only [shellCur]
    cases hm : matchFunctionDef (stripChars l.toList) with
    | some g => exact ih (some g) ⟨g, rfl, matchFunctionDef_ne_empty _ g hm⟩
    | none => exact ih cur h


/-- Helper: after any line list containing a function header,
`current_function` holds some nonempty name. -/
theorem shellCur_some_of_header (cur : Option String) (ls : List String)
    (h : ∃ j ∈ ls, isShellHeader j = true) :
    ∃ f, shellCur cur ls = some f ∧ f ≠ "" := by
  induction ls generalizing cur with
  | nil =>
    obtain ⟨j, hj, _⟩ := h
    cases hj
  | cons l t ih =>
    obtain ⟨j, hj, hh⟩ := h
    rcases List.mem_cons.mp hj with he | ht
    · subst he
      simp only [isShellHeader, Option.isSome] at hh
      cases hm : matchFunctionDef (stripChars j.toList) with
      | none => rw [hm] at hh; cases hh
      | some f =>
        simp only [shellCur, hm]
        exact shellCur_keeps_some (some f) t
          ⟨f, rfl, matchFunctionDef_ne_empty _ f hm⟩
    · simp only [shellCur]
      cases hm : matchFunctionDef (stripChars l.toList) with
      | some g =>
        exact shellCur_keeps_some (some g) t
          ⟨g, rfl, matchFunctionDef_ne_empty _ g hm⟩
      | none => exact ih cur ⟨j, ht, hh⟩

/-- Helper: every variable or export structure emitted by one loop
iteration carries `scope = current_function or "global"`. -/
theorem shellStep_scope (cur : Option String) (n : Nat) (ln : String)
    (s : HAStructure) (hs : s ∈ (shellStep cur n ln).2.1)
    (ht : s.type = "variable" ∨ s.type = "export") :
    List.lookup "scope" s.details = some (AttrVal.str (scopeOf cur)) := by
  unfold shellStep at hs
  cases hm : matchFunctionDef (stripChars ln.toList) with
  | some f =>
    rw [hm] at hs
    have hse := List.mem_singleton.mp hs
    subst hse
    rcases ht with ht | ht <;> simp at ht
  | none =>
    rw [hm] at hs
    cases hv : matchVarAssign (stripChars ln.toList) with
    | some p =>
      obtain ⟨nm, v⟩ := p
      rw [hv] at hs
      have hse := List.mem_singleton.mp hs
      subst hse
      rfl
    | none =>
      rw [hv] at hs
      cases hx : matchExport (stripChars ln.toList) with
      | some nm =>
        rw [hx] at hs
        have hse := List.mem_singleton.mp hs
        subst hse
        rfl
      | none =>
        rw [hx] at hs
        cases hsrc : matchSource (stripChars ln.toList) with
        | some p => rw [hsrc] at hs; cases hs
        | none => rw [hsrc] at hs; cases hs

/-- C9: the "current function" context of `_parse_shell` is set by a
function header and never cleared.  For every shell input split as
`pre ++ ln :: post`, the structures of the full parse decompose around the
line `ln`, and when `pre` contains at least one function-header line, every
variable or export structure emitted at `ln` has scope equal to the most
recently seen function name `f` (never `"global"` — the scope is `f` itself,
which is a nonempty captured name), even when `ln` lies after the function
body has textually ended. -/
theorem shell_scope_never_cleared (content : String) (pre post : List String)
    (ln : String) (hsplit : splitlines content = pre ++ ln :: post)
    (hhead : ∃ j ∈ pre, isShellHeader j = true) :
    (parseShell content).structures =
      (shellScan none 1 pre).1 ++ shellLineStructures pre ln ++
        (shellScan (shellCur none (pre ++ [ln])) (pre.length + 2) post).1 ∧
    ∀ s ∈ shellLineStructures pre ln,
      (s.type = "variable" ∨ s.type = "export") →
      ∃ f, shellCur none pre = some f ∧ f ≠ "" ∧
        List.lookup "scope" s.details = some (AttrVal.str f) := by
  constructor
  · show (shellScan none 1 (splitlines content)).1 = _
    rw [hsplit]
    rw [shellScan_append none 1 pre (ln :: post)]
    have hone : shellScan (shellCur none pre) (1 + pre.length) (ln :: post) =
        ((shellStep (shellCur none pre) (1 + pre.length) ln).2.1 ++
           (shellScan (shellStep (shellCur none pre) (1 + pre.length) ln).1
             (1 + pre.length + 1) post).1,
         (shellStep (shellCur none pre) (1 + pre.length) ln).2.2 ++
           (shellScan (shellStep (shellCur none pre) (1 + pre.length) ln).1
             (1 + pre.length + 1) post).2) := rfl
    rw [hone]
    have hl2 : 1 + pre.length + 1 = pre.length + 2 := by omega
    have hl1 : 1 + pre.length = pre.length + 1 := Nat.add_comm 1 pre.length
    have hcur2 : (shellStep (shellCur none pre) (pre.length + 1) ln).1 =
        shellCur none (pre ++ [ln]) := by
      rw [shellCur_append none pre [ln]]
      rw [shellStep_fst]
      simp only [shellCur]
    rw [hl2, hl1, hcur2]
    simp [shellLineStructures, List.append_assoc]
  · intro s hs ht
    obtain ⟨f, hf, hne⟩ := shellCur_some_of_header none pre hhead
    refine ⟨f, hf, hne, ?_⟩
    have := shellStep_scope (shellCur none pre) (pre.length + 1) ln s hs ht
    rw [hf] at this
    simpa [scopeOf, hne] using this

/-! ### Shell name-class lemmas (C10) -/

/-- Helper: a name-start character is not whitespace. -/
theorem isNameStart_not_space (c : Char) (h : isNameStart c = true) :
    isSpaceChar c = false := by
  simp only [isNameStart, isUpperAZ, isSpaceChar, Bool.or_eq_true,
    Bool.and_eq_true, decide_eq_true_eq, Bool.or_eq_false_iff,
    decide_eq_false_iff_not] at h ⊢
  omega

/-- Helper: a name-start character is a name character. -/
theorem isNameStart_isNameChar (c : Char) (h : isNameStart c = true) :
    isNameChar c = true := by
  simp only [isNameStart, isNameChar, isUpperAZ, isDigit09, Bool.or_eq_true,
    Bool.and_eq_true, decide_eq_true_eq] at h ⊢
  omega

/-- Helper: everything kept by `takeWhile` satisfies the predicate. -/
theorem all_takeWhile {α : Type} (p : α → Bool) (l : List α) :
    (l.takeWhile p).all p = true := by
  induction l with
  | nil => rfl
  | cons a t ih =>
    by_cases hp : p a
    · simp [List.takeWhile_cons, hp, ih]
    · simp [List.takeWhile_cons, hp]

/-- Helper: `goodName` on an explicit cons list. -/
theorem goodName_mk (c : Char) (l : List Char) :
    goodName (String.mk (c :: l)) = (isNameStart c && l.all isNameChar) := rfl

/-- Helper: a captured assignment name lies in `[A-Z_][A-Z0-9_]*`. -/
theorem matchVarAssign_goodName (cs : List Char) (nm v : String)
    (h : matchVarAssign cs = some (nm, v)) : goodName nm = true := by
  unfold matchVarAssign at h
  split at h
  · cases h
  · split at h
    · split at h
      · split at h
        · injection h with h2
          injection h2 with hnm hv
          subst hnm
          rw [goodName_mk]
          simp_all [all_takeWhile]
        · cases h
      · cases h
    · cases h

/-- Helper: a captured export name lies in `[A-Z_][A-Z0-9_]*`. -/
theorem matchExport_goodName (cs : List Char) (nm : String)
    (h : matchExport cs = some nm) : goodName nm = true := by
  unfold matchExport at h
  split at h
  · split at h
    · split at h
      · split at h
        · injection h with h2
          subst h2
          rw [goodName_mk]
          simp_all [all_takeWhile]
        · cases h
      · cases h
    · cases h
  · cases h

/-- Helper: the export pattern on the line `export <tok>` captures exactly
the longest `[A-Z0-9_]` prefix of `tok` whenever `tok` starts with a
name-start character — even when `tok` goes on with further (for example
lower-case) characters. -/
theorem matchExport_truncates (tok : String)
    (hh : ∃ c r, tok.toList = c :: r ∧ isNameStart c = true) :
    matchExport ("export " ++ tok).toList =
      some (String.mk (tok.toList.takeWhile isNameChar)) := by
  obtain ⟨c, r, htok, hc⟩ := hh
  obtain ⟨td⟩ := tok
  have htd : td = c :: r := htok
  subst htd
  show matchExport ('e' :: 'x' :: 'p' :: 'o' :: 'r' :: 't' :: ' ' :: c :: r) =
    some (String.mk ((c :: r).takeWhile isNameChar))
  show (if isSpaceChar ' ' then
          match List.dropWhile isSpaceChar (c :: r) with
          | d :: r2 =>
            if isNameStart d then some (String.mk (d :: r2.takeWhile isNameChar))
            else none
          | [] => none
        else none) = some (String.mk ((c :: r).takeWhile isNameChar))
  rw [if_pos (show isSpaceChar ' ' = true by decide)]
  rw [List.dropWhile_cons, if_neg (by simp [isNameStart_not_space c hc])]
  show (if isNameStart c then some (String.mk (c :: r.takeWhile isNameChar))
        else none) = some (String.mk ((c :: r).takeWhile isNameChar))
  rw [if_pos hc, List.takeWhile_cons, if_pos (isNameStart_isNameChar c hc)]

/-- C10 counterexample: the line `export FOObar` exports the name `FOObar`,
which contains lower-case letters, yet `_parse_shell` *does* produce a
structure for it — an export structure named by the truncated prefix
`FOO`. -/
theorem export_lowercase_truncated :
    ("FOObar".toList.any isLowerAZ = true) ∧
    exportLineOf "FOObar" = "export FOObar" ∧
    (parseShell (exportLineOf "FOObar")).structures =
      [⟨"export", "FOO", [("line", .num 1), ("scope", .str "global")]⟩] := by
  refine ⟨by decide, by decide, by decide⟩

/-- C10 amended: an assignment line produces a variable structure only when
the full name before `=` lies in `[A-Z_][A-Z0-9_]*` (so `foo=1` produces
nothing, and `export foo` produces nothing); every produced variable or
export name lies in that language; but an export line whose token starts
with an upper-case letter or underscore produces an export structure named
by the token's longest `[A-Z0-9_]` prefix, so a name that contains a
lower-case letter after such a prefix still yields a (truncated)
structure. -/
theorem shell_name_class_amended :
    (∀ cs nm v, matchVarAssign cs = some (nm, v) → goodName nm = true) ∧
    (∀ cs nm, matchExport cs = some nm → goodName nm = true) ∧
    (parseShell "foo=1").structures = [] ∧
    (parseShell "export foo").structures = [] ∧
    (∀ tok : String, (∃ c r, tok.toList = c :: r ∧ isNameStart c = true) →
       matchExport ("export " ++ tok).toList =
         some (String.mk (tok.toList.takeWhile isNameChar))) :=
  ⟨matchVarAssign_goodName, matchExport_goodName, by decide, by decide,
   matchExport_truncates⟩

/-- Witness for C10 amended at the token `FOObar`. -/
theorem shell_name_class_amended_witness :
    matchExport ("export " ++ "FOObar").toList =
      some (String.mk ("FOObar".toList.takeWhile isNameChar)) :=
  shell_name_class_amended.2.2.2.2 "FOObar"
    ⟨'F', "OObar".toList, by decide, by decide⟩

/-- Witness for C9 on a two-line script whose second line assigns after the
function body opened on the first. -/
theorem shell_scope_never_cleared_witness :
    splitlines "FOO() \x7b\nBAR=1" = ["FOO() \x7b"] ++ "BAR=1" :: [] ∧
    (∃ j ∈ ["FOO() \x7b"], isShellHeader j = true) ∧
    (∀ s ∈ shellLineStructures ["FOO() \x7b"] "BAR=1",
      (s.type = "variable" ∨ s.type = "export") →
      ∃ f, shellCur none ["FOO() \x7b"] = some f ∧ f ≠ "" ∧
        List.lookup "scope" s.details = some (AttrVal.str f)) :=
  ⟨by decide, ⟨"FOO() \x7b", by decide, by decide⟩,
   (shell_scope_never_cleared "FOO() \x7b\nBAR=1" ["FOO() \x7b"] [] "BAR=1"
     (by decide) ⟨"FOO() \x7b", by decide, by decide⟩).2⟩

end R2R
